import Mathlib

/-!
Verification of the WAVE RIFF container reader/writer (`wavfile.py`).

The embedding below translates the source module into Lean: bytes are
naturals (each below 256 in any real stream), byte strings are `List Nat`,
and the stateful scanning loop of `WavFile.__init__` becomes a fuelled
recursive function over the remaining byte list.  Fallible operations
return `Except`.
-/

namespace Wav

/-- Decidable equality for `Except` results (used to evaluate the model
on concrete inputs). -/
instance {ε α : Type} [DecidableEq ε] [DecidableEq α] : DecidableEq (Except ε α)
  | .ok a, .ok b =>
    if h : a = b then isTrue (by rw [h])
    else isFalse (by intro hh; cases hh; exact h rfl)
  | .error a, .error b =>
    if h : a = b then isTrue (by rw [h])
    else isFalse (by intro hh; cases hh; exact h rfl)
  | .ok _, .error _ => isFalse (by intro h; cases h)
  | .error _, .ok _ => isFalse (by intro h; cases h)

/-- Error taxonomy of the source module.  `parseError` is the module's
`ParseError`, `structError` is a raw `struct.error` escaping uncaught,
`attributeError` is a Python `AttributeError` carrying the attribute name,
`unsupportedCompression` is `UnsupportedCompressionError`, and
`typeError` is the `TypeError` Python 3 raises when `bytes` and `str`
values are concatenated. -/
inductive PyErr where
  | parseError : PyErr
  | structError : PyErr
  | attributeError : String → PyErr
  | unsupportedCompression : PyErr
  | typeError : PyErr
deriving DecidableEq

/-- Errors escaping `WavFile.__init__`: the module's `ParseError`/`Error`
instances (separated by their message), plus the bare `RuntimeError`
raised by the stdlib `Chunk.seek` when `chunk.skip()` would move past
the outer RIFF chunk's declared size — it is caught nowhere (`skip`
catches only `OSError`, the collection loop only `EOFError`). -/
inductive BuildErr where
  | invalidRiff : BuildErr
  | notWave : BuildErr
  | missingChunk : BuildErr
  | runtimeError : BuildErr
deriving DecidableEq

/-- Warnings surfaced via `log.warn` during container construction. -/
inductive Warning where
  | dataBeforeFmt : Warning
  | duplicateChunk : List Nat → Warning
deriving DecidableEq

/-- Little-endian 16-bit encoding (`struct.pack` with format `<H`/`<h`). -/
def le16 (n : Nat) : List Nat := [n % 256, n / 256 % 256]

/-- Little-endian 32-bit encoding (`struct.pack` with format `<L`/`<l`;
for values below 2^31 the signed and unsigned encodings coincide). -/
def le32 (n : Nat) : List Nat :=
  [n % 256, n / 256 % 256, n / 65536 % 256, n / 16777216 % 256]

/-- Little-endian 16-bit decoding of the first two bytes. -/
def readLE16 : List Nat → Nat
  | b0 :: b1 :: _ => b0 + 256 * b1
  | _ => 0

/-- Little-endian 32-bit decoding of the first four bytes
(`struct.unpack` with format `<L`). -/
def readLE32 : List Nat → Nat
  | b0 :: b1 :: b2 :: b3 :: _ => b0 + 256 * (b1 + 256 * (b2 + 256 * b3))
  | _ => 0

/-- Reinterpret an unsigned 32-bit value as signed (`struct` format `l`). -/
def toS32 (v : Nat) : Int :=
  let m := v % 4294967296
  if m < 2147483648 then (m : Int) else (m : Int) - 4294967296

/-- Reinterpret an unsigned 16-bit value as signed (`struct` format `h`). -/
def toS16 (v : Nat) : Int :=
  let m := v % 65536
  if m < 32768 then (m : Int) else (m : Int) - 65536

/-- Signed 32-bit little-endian value at byte offset `off` of `data`. -/
def readS32at (data : List Nat) (off : Nat) : Int := toS32 (readLE32 (data.drop off))

-- Four-character chunk tags (byte values of the source's tag constants).
def RIFFb : List Nat := [82, 73, 70, 70]
def WAVEb : List Nat := [87, 65, 86, 69]
def fmtTag : List Nat := [102, 109, 116, 32]
def dataTag : List Nat := [100, 97, 116, 97]
def smplTag : List Nat := [115, 109, 112, 108]
def cueTag : List Nat := [99, 117, 101, 32]
def factTag : List Nat := [102, 97, 99, 116]
def instTag : List Nat := [105, 110, 115, 116]
def plstTag : List Nat := [112, 108, 115, 116]
/-- lowercase `list` (a member of `KNOWN_CHUNKS`). -/
def listTag : List Nat := [108, 105, 115, 116]
/-- uppercase `LIST` (not a member of `KNOWN_CHUNKS`). -/
def LISTTag : List Nat := [76, 73, 83, 84]
def wavlTag : List Nat := [119, 97, 118, 108]
def INFOb : List Nat := [73, 78, 70, 79]

/-- `KNOWN_CHUNKS` from the source: the tags stored singularly in the
`chunks` dict (all lowercase; note `list` and `wavl` are members). -/
def KNOWN_CHUNKS : List (List Nat) :=
  [cueTag, dataTag, factTag, fmtTag, instTag, listTag, plstTag, smplTag, wavlTag]

/-- A chunk as scanned by `WavChunk.__init__`: four-byte tag, declared
size (`<L` field), and the payload bytes actually available (the `data`
property; at most `chunksize` bytes, fewer when the stream is short). -/
structure WavChunk where
  name : List Nat
  chunksize : Nat
  data : List Nat
deriving DecidableEq

/-- Python 3 concatenation of a `bytes` value with a `str` value: it
raises `TypeError` unconditionally ("can't concat str to bytes"),
whatever the operands are — including the empty string. -/
def pyConcatBytesStr (_ : List Nat) (_ : String) : Except PyErr (List Nat) :=
  .error .typeError

/-- The bytes `struct.pack('<4sL%is', name, len(data), data)` produces
inside `WavChunk.__str__`: tag, little-endian payload length, payload
(the `4s` field re-emits the four tag bytes unchanged since every
scanned tag has exactly four bytes). -/
def WavChunk.packed (c : WavChunk) : List Nat :=
  c.name ++ le32 c.data.length ++ c.data

/-- `WavChunk.__str__` under the repository's Python 3 (readloops.py and
fix-polyphone-sfz.py use `print(..., file=...)`, makesfz.py imports
pathlib): the method evaluates `packed + ('\0' if odd else '')`, a
`bytes` + `str` concatenation, so it raises `TypeError` on every call —
odd and even payload lengths alike — and never returns the intended
padded byte string. -/
def WavChunk.str (c : WavChunk) : Except PyErr (List Nat) :=
  pyConcatBytesStr c.packed (if c.data.length % 2 = 1 then "\x00" else "")

/-- `ListChunk`'s `type_id` field: the `struct.unpack_from '<4s'` of the
first four payload bytes; `none` stands for the `ParseError` raised when
fewer than four payload bytes exist.  Accessing `type_id` in the source
runs all of `ListChunk._parse`, whose sub-chunk walk can raise on a
malformed payload; theorems about iteration therefore carry a
`listParseOk` hypothesis confining them to payloads the walk accepts. -/
def WavChunk.typeId (c : WavChunk) : Option (List Nat) :=
  if 4 ≤ c.data.length then some (c.data.take 4) else none

/-- The chunk-scanning loop of `WavFile.__init__`, with fuel.  `bs` holds
the bytes physically readable through the outer RIFF chunk and `budget`
the room the RIFF chunk's declared size still grants (reads never return
more than `budget` bytes, so `bs.length ≤ budget` throughout).  Each
pass models `chunk_factory`: read 4 tag bytes (fewer available raises
`EOFError`, caught by the loop as a clean break); read a 4-byte `<L`
size (a short read raises `struct.error`, re-raised as `EOFError` and
likewise caught as a clean break); record the chunk; `chunk.skip()`
seeks past payload and the pad byte for odd sizes.  That seek goes
through the stdlib `Chunk.seek` of the outer RIFF chunk, which raises a
bare uncaught `RuntimeError` when the target exceeds the declared size —
`budget < 8 + skip` — aborting construction; within the declared size,
a seek past the bytes physically present is legal (the file is simply
truncated), the chunk keeps its truncated payload and the following read
hits end of stream. -/
def readChunksF : Nat → Nat → List Nat → Except BuildErr (List WavChunk)
  | 0, _, _ => .ok []
  | fuel + 1, budget, bs =>
    if bs.length < 4 then .ok []
    else
      let tag := bs.take 4
      let rest := bs.drop 4
      if rest.length < 4 then .ok []
      else
        let size := readLE32 rest
        let body := rest.drop 4
        let skip := size + size % 2
        if budget < 8 + skip then .error .runtimeError
        else
          (readChunksF fuel (budget - (8 + skip)) (body.drop skip)).map
            (fun cs => ⟨tag, size, body.take size⟩ :: cs)

/-- The chunk scan of `WavFile.__init__` over the bytes following the
`WAVE` form type.  Each pass consumes at least eight bytes, so fuel equal
to the byte count never runs out. -/
def readChunks (budget : Nat) (bs : List Nat) : Except BuildErr (List WavChunk) :=
  readChunksF bs.length budget bs

/-- Association-list lookup, modelling `dict.get`/`dict.__getitem__` on
the tag-keyed `chunks` dict. -/
def alGet? {α : Type} : List (List Nat × α) → List Nat → Option α
  | [], _ => none
  | (k, v) :: t, key => if k = key then some v else alGet? t key

/-- `dict.setdefault(name, []).append(chunk)`: append `c` to the list at
key `k`, creating the entry when absent. -/
def alAppend : List (List Nat × List WavChunk) → List Nat → WavChunk →
    List (List Nat × List WavChunk)
  | [], k, c => [(k, [c])]
  | (k0, vs) :: t, k, c =>
    if k0 = k then (k0, vs ++ [c]) :: t else (k0, vs) :: alAppend t k c

/-- `dict.get(key, [])` over the plural part of the `chunks` dict. -/
def listGetD (l : List (List Nat × List WavChunk)) (k : List Nat) : List WavChunk :=
  (alGet? l k).getD []

/-- The observable state of a `WavFile` instance: the `chunks` dict split
into its singular part (`KNOWN_CHUNKS` tags map to one chunk) and its
plural part (every other tag maps to a list), the arrival-order
`_chunklist`, and the warnings issued through `log.warn`. -/
structure WavFile where
  known : List (List Nat × WavChunk)
  other : List (List Nat × List WavChunk)
  chunklist : List WavChunk
  warnings : List Warning
deriving DecidableEq

def emptyWavFile : WavFile := ⟨[], [], [], []⟩

/-- One pass of the chunk-collection loop body of `WavFile.__init__`
(after `chunk_factory` returned a chunk): warn when a `data` chunk
arrives before `fmt `; store singular (`KNOWN_CHUNKS`) tags first-wins,
dropping duplicates with a warning; accumulate other tags into a list;
always append to `_chunklist`. -/
def addChunk (wf : WavFile) (c : WavChunk) : WavFile :=
  let w1 : List Warning :=
    if c.name = dataTag ∧ alGet? wf.known fmtTag = none then [.dataBeforeFmt] else []
  if c.name ∈ KNOWN_CHUNKS then
    if (alGet? wf.known c.name).isSome then
      { wf with chunklist := wf.chunklist ++ [c],
                warnings := wf.warnings ++ w1 ++ [.duplicateChunk c.name] }
    else
      { wf with known := (c.name, c) :: wf.known,
                chunklist := wf.chunklist ++ [c],
                warnings := wf.warnings ++ w1 }
  else
    { wf with other := alAppend wf.other c.name c,
              chunklist := wf.chunklist ++ [c],
              warnings := wf.warnings ++ w1 }

/-- Folding the collection loop over all scanned chunks. -/
def buildChunks (cs : List WavChunk) : WavFile := cs.foldl addChunk emptyWavFile

/-- The byte range the outer RIFF chunk exposes: everything after the
8-byte chunk header, limited to the declared `<L` size (the stdlib
`Chunk` object never reads past its declared size, and reads return what
actually remains when the file is shorter). -/
def riffContent (bs : List Nat) : List Nat :=
  (bs.drop 8).take (readLE32 (bs.drop 4))

/-- `WavFile.__init__` on an in-memory byte source: read the outer chunk
header (4-byte name, 4-byte `<L` size; `EOFError`/wrong name raise
`ParseError`), check the `WAVE` form type, scan the chunks limited to the
declared RIFF size, and finally require both `fmt ` and `data` in the
`chunks` dict. -/
def WavFile.build (bs : List Nat) : Except BuildErr WavFile :=
  if bs.length < 8 then .error .invalidRiff
  else if bs.take 4 ≠ RIFFb then .error .invalidRiff
  else if (riffContent bs).take 4 ≠ WAVEb then .error .notWave
  else
    match readChunks (readLE32 (bs.drop 4) - 4) ((riffContent bs).drop 4) with
    | .error e => .error e
    | .ok cs =>
      let wf := buildChunks cs
      if (alGet? wf.known fmtTag).isSome ∧ (alGet? wf.known dataTag).isSome then
        .ok wf
      else .error .missingChunk

/-- `WavFile.__iter__`: the `fmt ` chunk from the dict first, then every
uppercase-`LIST` chunk whose `type_id` is `INFO` (in arrival order), then
the arrival-order list skipping `fmt ` chunks and `INFO`-typed uppercase
`LIST` chunks.  (`fmt ` is always present on a constructed instance; an
absent entry would raise `KeyError`, modelled here as yielding nothing.) -/
def WavFile.iter (wf : WavFile) : List WavChunk :=
  (alGet? wf.known fmtTag).toList ++
    (listGetD wf.other LISTTag).filter (fun c => decide (c.typeId = some INFOb)) ++
    wf.chunklist.filter (fun c =>
      !(decide (c.name = fmtTag)) &&
      !(decide (c.name = LISTTag) && decide (c.typeId = some INFOb)))

/-- `WavFile.__str__`: `b"".join(str(chunk) for chunk in self)` followed
by the RIFF header around the joined data.  Consuming the generator calls
`str(chunk)` per yielded chunk — modelled by `mapM` — and
`WavChunk.__str__` raises `TypeError` on the very first chunk (on a
constructed container the first yield is the `fmt ` chunk, before any
`LIST` type-id access), so the emission after the `pure` is unreachable
on every constructed container. -/
def WavFile.str (wf : WavFile) : Except PyErr (List Nat) := do
  let parts ← wf.iter.mapM WavChunk.str
  let d := parts.flatten
  pure (RIFFb ++ le32 (d.length + 4) ++ WAVEb ++ d)

/-- `Except.isOk` as a plain definition (used to state that construction
succeeds without naming the resulting value). -/
def exceptIsOk {ε α : Type} : Except ε α → Bool
  | .ok _ => true
  | .error _ => false

/-- The constructed `WavFile`, with a default for the impossible error
case (used only to state concrete evaluations compactly). -/
def buildD (bs : List Nat) : WavFile :=
  match WavFile.build bs with
  | .ok wf => wf
  | .error _ => emptyWavFile

/-- The typed fields of `FmtChunk` after `_parse` ran: the `<hhllh` base
record, plus `bits_per_sample` (read from bytes 14..16) exactly when
`format_tag` is the PCM tag 1, and the `compressed` flag. -/
structure FmtFields where
  format_tag : Int
  channels : Int
  samples_per_sec : Int
  avg_bytes_per_sec : Int
  block_align : Int
  bits_per_sample : Option Int
  compressed : Bool
deriving DecidableEq

/-- `FmtChunk._parse`: unpack `<hhllh` (14 bytes; a shorter payload raises
`struct.error`, converted to `ParseError` by `WavChunk._parse`), then for
PCM unpack `<h` from bytes 14..16 (a short slice raises a bare
`struct.error`, uncaught in the source). -/
def fmtParse (data : List Nat) : Except PyErr FmtFields :=
  if data.length < 14 then .error .parseError
  else
    let ft := toS16 (readLE16 data)
    if ft = 1 then
      if data.length < 16 then .error .structError
      else .ok ⟨ft, toS16 (readLE16 (data.drop 2)), toS32 (readLE32 (data.drop 4)),
        toS32 (readLE32 (data.drop 8)), toS16 (readLE16 (data.drop 12)),
        some (toS16 (readLE16 (data.drop 14))), false⟩
    else .ok ⟨ft, toS16 (readLE16 (data.drop 2)), toS32 (readLE32 (data.drop 4)),
      toS32 (readLE32 (data.drop 8)), toS16 (readLE16 (data.drop 12)), none, true⟩

/-- `FmtChunk.sample_width`: `(bits_per_sample + 7) // 8` for PCM
(Python floor division), `UnsupportedCompressionError` otherwise.
`bits_per_sample` is always set when `format_tag = 1` (see `fmtParse`),
so the `getD` default is never read on parsed fields. -/
def FmtFields.sample_width (f : FmtFields) : Except PyErr Int :=
  if f.format_tag = 1 then .ok ((f.bits_per_sample.getD 0 + 7).fdiv 8)
  else .error .unsupportedCompression

/-- `FmtChunk.frame_size`: `channels * sample_width`. -/
def FmtFields.frame_size (f : FmtFields) : Except PyErr Int :=
  (f.sample_width).map (fun w => f.channels * w)

/-- `fmt ` payload decoding followed by the `sample_width` property. -/
def fmtWidthOf (data : List Nat) : Except PyErr Int :=
  fmtParse data >>= FmtFields.sample_width

/-- One sampler loop record (`<6l` at a payload offset). -/
structure LoopPoint where
  cue_point_id : Int
  type : Int
  start : Int
  end_ : Int
  fraction : Int
  play_count : Int
deriving DecidableEq

/-- The typed fields of `SmplChunk` after `_parse` ran. -/
structure SmplFields where
  manufacturer : Int
  product : Int
  sample_period : Int
  midi_unity_note : Int
  midi_pitch_fraction : Int
  smpte_format : Int
  smpte_offset : Int
  sample_loops : Int
  sampler_data : Int
  loops : List LoopPoint
deriving DecidableEq

/-- One iteration of the loop-reading `for` in `SmplChunk._parse`: it
unpacks `<6l` at the FIXED offset `struct.calcsize('<9l') = 36` — the
loop index is never used to advance the offset, so every iteration
decodes the first record.  Fewer than 60 payload bytes raise a bare
`struct.error` (the `try` in `WavChunk._parse` does not cover this). -/
def smplLoopRecord (data : List Nat) : Except PyErr LoopPoint :=
  if data.length < 60 then .error .structError
  else .ok ⟨readS32at data 36, readS32at data 40, readS32at data 44,
    readS32at data 48, readS32at data 52, readS32at data 56⟩

/-- `range(self.sample_loops)` iterations of the record read. -/
def smplLoops (data : List Nat) : Nat → Except PyErr (List LoopPoint)
  | 0 => .ok []
  | n + 1 => do
    let r ← smplLoopRecord data
    let rs ← smplLoops data n
    pure (r :: rs)

/-- `SmplChunk._parse`: unpack the `<9l` header (36 bytes; shorter raises
`ParseError`), then run `sample_loops` iterations of the record read.
`range` of a negative count is empty, hence the `toNat` clamp. -/
def smplParse (data : List Nat) : Except PyErr SmplFields :=
  if data.length < 36 then .error .parseError
  else
    let nloops := readS32at data 28
    (smplLoops data nloops.toNat).map (fun ls =>
      ⟨readS32at data 0, readS32at data 4, readS32at data 8, readS32at data 12,
       readS32at data 16, readS32at data 20, readS32at data 24, nloops,
       readS32at data 32, ls⟩)

/-- The sub-chunk loop of `ListChunk._parse`, with fuel: at position
`pos`, slice a 4-byte sub-tag, unpack a `<l` SIGNED size at `pos + 4`
(fewer than `pos + 8` payload bytes raise a bare `struct.error`), slice
the sub-data, and advance past data and pad.  A negative size (raw value
at or above 2^31) drives the source's walk backwards: on later passes
`unpack_from` receives an out-of-range negative offset and raises
`struct.error`, or — when the step `8 + size + pad` is not positive —
the source loops forever; rare contrived payloads advance and even
terminate.  The model coarsens all negative-size outcomes to an error,
so `listParseOk` below is true only when the source's walk, running the
same arithmetic on non-negative sizes, genuinely succeeds. -/
def listSubsF : Nat → List Nat → Nat → Except PyErr (List (List Nat × List Nat))
  | 0, _, _ => .error .structError
  | fuel + 1, data, pos =>
    if pos < data.length then
      if data.length < pos + 8 then .error .structError
      else
        let sizeS := toS32 (readLE32 (data.drop (pos + 4)))
        if sizeS < 0 then .error .structError
        else
          let tag := (data.drop pos).take 4
          let size := sizeS.toNat
          let sub := (data.drop (pos + 8)).take size
          (listSubsF fuel data (pos + 8 + size + size % 2)).map
            (fun rest => (tag, sub) :: rest)
    else .ok []

/-- `ListChunk._parse`: the `<4s` type id (fewer than 4 bytes raise
`ParseError`) followed by the sub-chunk scan from position 4.  Each loop
pass advances the position by at least 8, so fuel `data.length + 1` never
runs out. -/
def listDecode (data : List Nat) :
    Except PyErr (List Nat × List (List Nat × List Nat)) :=
  if 4 ≤ data.length then
    (listSubsF (data.length + 1) data 4).map (fun subs => (data.take 4, subs))
  else .error .parseError

/-- Whether accessing a parsed attribute of an uppercase-`LIST` chunk
(e.g. `type_id` during iteration) succeeds without raising. -/
def listParseOk (data : List Nat) : Bool := exceptIsOk (listDecode data)

/-- One cue record as the spec describes it (never actually produced by
the source, whose cue decoding raises before building any). -/
structure CuePoint where
  id : Int
  position : Int
  data_chunk_id : List Nat
  chunk_start : Int
  block_start : Int
  sample_offset : Int
deriving DecidableEq

/-- `CueChunk._fieldnames` is the plain string `'num_cue_points'` — the
tuple comma is missing — so the `*names` splat in `_parse` iterates its
characters. -/
def cueFieldnameChars : List String := "num_cue_points".toList.map (fun ch => String.mk [ch])

/-- The attribute dict produced by `WavChunk._parse` for a `cue ` chunk:
`zip` of the fourteen one-character names with the single `<l` value
yields exactly `[("n", count)]`. -/
def cueHeaderAttrs (data : List Nat) : Except PyErr (List (String × Int)) :=
  if data.length < 4 then .error .parseError
  else .ok (List.zip cueFieldnameChars [toS32 (readLE32 data)])

/-- String-keyed attribute lookup. -/
def strGet? : List (String × Int) → String → Option Int
  | [], _ => none
  | (k, v) :: t, key => if k = key then some v else strGet? t key

/-- Accessing `.loops` on a `cue ` chunk: `__getattr__` triggers
`CueChunk._parse`, which reads `self.num_cue_points`; that attribute was
never set (the header dict holds only the key `"n"`), so `__getattr__`
re-enters and raises `AttributeError('num_cue_points')`.  Were the count
readable, a positive count would hit the undefined `_cue_fieldnames`
attribute inside the loop, and a non-positive count would leave `loops`
itself unset. -/
def cueGetLoops (data : List Nat) : Except PyErr (List CuePoint) := do
  let attrs ← cueHeaderAttrs data
  match strGet? attrs "num_cue_points" with
  | none => .error (.attributeError "num_cue_points")
  | some n =>
    if 0 < n then .error (.attributeError "_cue_fieldnames")
    else .error (.attributeError "loops")

/-- `WavFile.cue_points`: `self.chunks[b'cue '].loops` with only
`KeyError` (an absent `cue ` chunk) converted to the empty list; the
`AttributeError` from the broken cue decoding propagates. -/
def WavFile.cue_points (wf : WavFile) : Except PyErr (List CuePoint) :=
  match alGet? wf.known cueTag with
  | none => .ok []
  | some c => cueGetLoops c.data

/-! ### Describing well-formed byte sources

A well-formed source is described by the list of its chunks as
(tag, payload) pairs; the encoders below produce the exact on-disk bytes
(sizes match payloads, pads are zero). -/

/-- A source chunk: four-byte tag and payload. -/
abbrev Item := List Nat × List Nat

/-- The on-disk encoding of one chunk: tag, `<L` size, payload, and a
zero pad byte iff the payload length is odd. -/
def encChunk (tag payload : List Nat) : List Nat :=
  tag ++ le32 payload.length ++ payload ++
    (if payload.length % 2 = 1 then [0] else [])

def encItem (it : Item) : List Nat := encChunk it.1 it.2

/-- The chunk a well-formed encoding scans back to. -/
def toChunk (it : Item) : WavChunk := ⟨it.1, it.2.length, it.2⟩

/-- Concatenated chunk encodings (the bytes after the `WAVE` form type). -/
def encodeBody (items : List Item) : List Nat := (items.map encItem).flatten

/-- A full RIFF/WAVE stream around the given body bytes, with a
consistent declared size. -/
def mkWavBytes (body : List Nat) : List Nat :=
  RIFFb ++ le32 (body.length + 4) ++ WAVEb ++ body

/-- A full well-formed WAVE stream holding the given chunks. -/
def encodeWav (items : List Item) : List Nat := mkWavBytes (encodeBody items)

/-! ### Concrete inputs used in claim statements and witnesses -/

/-- Number of duplicate-chunk warnings issued for a given tag. -/
def dupWarnCount (wf : WavFile) (t : List Nat) : Nat :=
  (wf.warnings.filter (fun w => decide (w = Warning.duplicateChunk t))).length

/-- A concrete well-formed source: arrival order
data, smpl, fmt , LIST(INFO). -/
def c1items : List Item :=
  [(dataTag, [9]), (smplTag, []), (fmtTag, [1, 2]), (LISTTag, INFOb)]

/-- A concrete source whose lowercase `list` chunk carries the INFO type
id, arriving between `data` and `fmt `. -/
def c2LowerItems : List Item := [(dataTag, [9]), (listTag, INFOb), (fmtTag, [1, 2])]

/-- The source of the spec's concrete example: arrival order
data, smpl, fmt , LIST(INFO). -/
def c2items : List Item :=
  [(dataTag, [9]), (smplTag, []), (fmtTag, [1, 2]), (LISTTag, INFOb)]

/-- Concrete chunks for the C4 scenarios. -/
def c4items : List Item := [(fmtTag, [1, 2]), (dataTag, [])]

/-- A stray 4-byte tag followed by only 2 size bytes. -/
def c4junk : List Nat := [97, 98, 99, 100, 5, 0]

/-- A `smpl` payload declaring 2 loops, followed by two distinct 24-byte
records (values 1..6 and 7..12). -/
def c3payload : List Nat :=
  List.replicate 28 0 ++ le32 2 ++ le32 0 ++
  le32 1 ++ le32 2 ++ le32 3 ++ le32 4 ++ le32 5 ++ le32 6 ++
  le32 7 ++ le32 8 ++ le32 9 ++ le32 10 ++ le32 11 ++ le32 12

/-- The same payload truncated to a single record. -/
def c3truncated : List Nat :=
  List.replicate 28 0 ++ le32 2 ++ le32 0 ++
  le32 1 ++ le32 2 ++ le32 3 ++ le32 4 ++ le32 5 ++ le32 6

/-- A PCM format payload: tag 1, 2 channels, 44100 Hz, 16 bits. -/
def pcm16payload : List Nat :=
  le16 1 ++ le16 2 ++ le32 44100 ++ le32 176400 ++ le16 4 ++ le16 16

/-- A `cue ` payload declaring one record followed by exactly one
24-byte record. -/
def c5cuePayload : List Nat :=
  le32 1 ++ le32 10 ++ le32 100 ++ dataTag ++ le32 0 ++ le32 0 ++ le32 5

def c5items : List Item :=
  [(fmtTag, pcm16payload), (dataTag, []), (cueTag, c5cuePayload)]

def c5noCueItems : List Item := [(fmtTag, pcm16payload), (dataTag, [])]

/-- Two `wavl` chunks around the mandatory pair. -/
def c6items : List Item :=
  [(fmtTag, [1, 2]), (dataTag, []), (wavlTag, [5, 0]), (wavlTag, [6, 0])]

/-- An IMA-ADPCM format payload: tag 17, 1 channel, no bits field. -/
def ima17payload : List Nat :=
  le16 17 ++ le16 1 ++ le32 8000 ++ le32 4000 ++ le16 256

def c7imaItems : List Item := [(fmtTag, ima17payload), (dataTag, [])]

/-- The decoded fields of `pcm16payload`. -/
def f16 : FmtFields := ⟨1, 2, 44100, 176400, 4, some 16, false⟩

/-- Two `fmt ` chunks around a `data` chunk. -/
def c10items : List Item := [(fmtTag, [1, 2]), (dataTag, []), (fmtTag, [3, 4])]

/-! ### Lemmas about the byte scanner -/

theorem le32_length (n : Nat) : (le32 n).length = 4 := rfl

theorem readLE32_le32 (n : Nat) (rest : List Nat) (h : n < 4294967296) :
    readLE32 (le32 n ++ rest) = n := by
  simp only [le32, List.cons_append, List.nil_append, readLE32]
  omega

theorem readChunksF_short (fuel budget : Nat) (bs : List Nat)
    (h : bs.length < 8) : readChunksF fuel budget bs = .ok [] := by
  cases fuel with
  | zero => rfl
  | succ f =>
    by_cases h4 : bs.length < 4
    · simp [readChunksF, h4]
    · simp only [readChunksF, h4, if_false, List.length_drop]
      rw [if_pos (by omega)]

theorem readChunksF_irrel (f1 : Nat) : ∀ (f2 budget : Nat) (bs : List Nat),
    bs.length ≤ f1 → bs.length ≤ f2 →
    readChunksF f1 budget bs = readChunksF f2 budget bs := by
  induction f1 with
  | zero =>
    intro f2 budget bs h1 _
    have hb : bs.length < 8 := by omega
    rw [readChunksF_short _ _ _ hb, readChunksF_short _ _ _ hb]
  | succ f ih =>
    intro f2 budget bs h1 h2
    by_cases h4 : bs.length < 4
    · have hb : bs.length < 8 := by omega
      rw [readChunksF_short _ _ _ hb, readChunksF_short _ _ _ hb]
    · by_cases h44 : (bs.drop 4).length < 4
      · have hb : bs.length < 8 := by
          simp only [List.length_drop] at h44; omega
        rw [readChunksF_short _ _ _ hb, readChunksF_short _ _ _ hb]
      · have hlen8 : 8 ≤ bs.length := by
          simp only [List.length_drop] at h44; omega
        obtain ⟨g, rfl⟩ : ∃ g, f2 = g + 1 := by
          cases f2 with
          | zero => omega
          | succ g => exact ⟨g, rfl⟩
        simp only [readChunksF, h4, if_false, h44]
        have hrec : (((bs.drop 4).drop 4).drop
            (readLE32 (bs.drop 4) + readLE32 (bs.drop 4) % 2)).length ≤ f ∧
            (((bs.drop 4).drop 4).drop
            (readLE32 (bs.drop 4) + readLE32 (bs.drop 4) % 2)).length ≤ g := by
          simp only [List.length_drop]; omega
        rw [ih g _ _ hrec.1 hrec.2]

theorem readChunks_short (budget : Nat) (bs : List Nat) (h : bs.length < 8) :
    readChunks budget bs = .ok [] := readChunksF_short _ _ _ h

/-- Scanning a single well-formed chunk encoding followed by anything,
when the declared outer size covers the whole chunk: the chunk comes back
with its exact tag, declared size equal to the payload length, and the
payload without the pad byte; the scan continues on the tail with the
remaining budget. -/
theorem readChunks_cons (tag payload rest : List Nat) (budget : Nat)
    (ht : tag.length = 4) (hp : payload.length < 4294967296)
    (hb : 8 + (payload.length + payload.length % 2) ≤ budget) :
    readChunks budget (encChunk tag payload ++ rest) =
      (readChunks (budget - (8 + (payload.length + payload.length % 2))) rest).map
        (fun cs => ⟨tag, payload.length, payload⟩ :: cs) := by
  set pad : List Nat := if payload.length % 2 = 1 then [0] else [] with hpad
  have hpadlen : pad.length = payload.length % 2 := by
    rw [hpad]; by_cases h : payload.length % 2 = 1
    · simp [h]
    · simp only [h, if_false, List.length_nil]; omega
  have hbs : encChunk tag payload ++ rest =
      tag ++ (le32 payload.length ++ ((payload ++ pad) ++ rest)) := by
    simp [encChunk, hpad, List.append_assoc]
  have hlen : (encChunk tag payload ++ rest).length =
      8 + payload.length + pad.length + rest.length := by
    rw [hbs]; simp only [List.length_append, le32_length, ht]; omega
  obtain ⟨f, hf⟩ : ∃ f, (encChunk tag payload ++ rest).length = f + 1 := by
    refine ⟨(encChunk tag payload ++ rest).length - 1, ?_⟩; omega
  have h4 : ¬ (encChunk tag payload ++ rest).length < 4 := by omega
  unfold readChunks
  rw [hf]
  have hdrop4 : (encChunk tag payload ++ rest).drop 4 =
      le32 payload.length ++ ((payload ++ pad) ++ rest) := by
    rw [hbs]; exact List.drop_left' ht
  have h44 : ¬ ((encChunk tag payload ++ rest).drop 4).length < 4 := by
    rw [hdrop4]; simp only [List.length_append, le32_length]; omega
  simp only [readChunksF, h4, if_false, h44]
  rw [hdrop4]
  have htake4 : (encChunk tag payload ++ rest).take 4 = tag := by
    rw [hbs]; exact List.take_left' ht
  rw [htake4]
  rw [readLE32_le32 _ _ hp]
  have hdrop44 : (le32 payload.length ++ ((payload ++ pad) ++ rest)).drop 4 =
      (payload ++ pad) ++ rest := List.drop_left' (le32_length _)
  rw [hdrop44]
  have htakep : ((payload ++ pad) ++ rest).take payload.length = payload := by
    rw [List.append_assoc]; exact List.take_left' rfl
  rw [htakep]
  have hdropp : ((payload ++ pad) ++ rest).drop
      (payload.length + payload.length % 2) = rest := by
    refine List.drop_left' ?_
    simp only [List.length_append, hpadlen]
  rw [hdropp]
  rw [if_neg (by omega)]
  refine congrArg (fun e => Except.map _ e) ?_
  refine readChunksF_irrel f rest.length
    (budget - (8 + (payload.length + payload.length % 2))) rest ?_ ?_ <;> omega

/-- Scanning a sequence of well-formed chunk encodings followed by a
tail, when the declared outer size covers all of them. -/
theorem readChunks_append_encode (items : List Item) (t : List Nat)
    (budget : Nat)
    (hit : ∀ it ∈ items, it.1.length = 4 ∧ it.2.length < 4294967296)
    (hb : (encodeBody items).length ≤ budget) :
    readChunks budget (encodeBody items ++ t) =
      (readChunks (budget - (encodeBody items).length) t).map
        (fun cs => items.map toChunk ++ cs) := by
  induction items generalizing budget with
  | nil =>
    simp only [encodeBody, List.map_nil, List.flatten_nil, List.nil_append,
      List.length_nil, Nat.sub_zero]
    cases h : readChunks budget t with
    | error e => rfl
    | ok cs => rfl
  | cons x xs ih =>
    have hx := hit x (by simp)
    have hxs : ∀ it ∈ xs, it.1.length = 4 ∧ it.2.length < 4294967296 :=
      fun it hmem => hit it (by simp [hmem])
    have hencx : (encChunk x.1 x.2).length = 8 + (x.2.length + x.2.length % 2) := by
      simp only [encChunk, List.length_append, le32_length, hx.1]
      by_cases h : x.2.length % 2 = 1
      · simp [h]; omega
      · simp only [h, if_false, List.length_nil]; omega
    have hbody : encodeBody (x :: xs) = encChunk x.1 x.2 ++ encodeBody xs := by
      simp [encodeBody, encItem]
    have hblen : (encodeBody (x :: xs)).length =
        (8 + (x.2.length + x.2.length % 2)) + (encodeBody xs).length := by
      rw [hbody, List.length_append, hencx]
    have hb1 : 8 + (x.2.length + x.2.length % 2) ≤ budget := by omega
    have hstep : encodeBody (x :: xs) ++ t = encChunk x.1 x.2 ++ (encodeBody xs ++ t) := by
      rw [hbody, List.append_assoc]
    rw [hstep]
    show readChunks budget (encChunk x.1 x.2 ++ (encodeBody xs ++ t)) = _
    rw [readChunks_cons x.1 x.2 _ budget hx.1 hx.2 hb1]
    rw [ih (budget - (8 + (x.2.length + x.2.length % 2))) hxs (by omega)]
    have harith : budget - (8 + (x.2.length + x.2.length % 2)) -
        (encodeBody xs).length = budget - (encodeBody (x :: xs)).length := by
      omega
    rw [harith]
    cases h : readChunks (budget - (encodeBody (x :: xs)).length) t with
    | error e => rfl
    | ok cs => rfl

/-- Scanning exactly a sequence of well-formed chunk encodings. -/
theorem readChunks_encodeBody (items : List Item) (budget : Nat)
    (hit : ∀ it ∈ items, it.1.length = 4 ∧ it.2.length < 4294967296)
    (hb : (encodeBody items).length ≤ budget) :
    readChunks budget (encodeBody items) = .ok (items.map toChunk) := by
  have h := readChunks_append_encode items [] budget hit hb
  rw [List.append_nil] at h
  rw [h, readChunks_short _ [] (by simp)]
  simp [Except.map]

/-- Scanning a trailing chunk whose declared size exceeds the bytes
present but stays within the declared outer size (a physically truncated
file): the truncated chunk is recorded and the scan stops cleanly. -/
theorem readChunks_truncated (tag p : List Nat) (s budget : Nat)
    (ht : tag.length = 4) (hs : s < 4294967296) (hshort : p.length < s)
    (hb : 8 + s + s % 2 ≤ budget) :
    readChunks budget (tag ++ le32 s ++ p) = .ok [⟨tag, s, p⟩] := by
  have hbs : tag ++ le32 s ++ p = tag ++ (le32 s ++ p) := by
    simp [List.append_assoc]
  have hlen : (tag ++ le32 s ++ p).length = 8 + p.length := by
    simp only [List.length_append, le32_length, ht]
  obtain ⟨f, hf⟩ : ∃ f, (tag ++ le32 s ++ p).length = f + 1 := by
    refine ⟨7 + p.length, ?_⟩; omega
  have h4 : ¬ (tag ++ le32 s ++ p).length < 4 := by omega
  unfold readChunks
  rw [hf]
  have hdrop4 : (tag ++ le32 s ++ p).drop 4 = le32 s ++ p := by
    rw [hbs]; exact List.drop_left' ht
  have h44 : ¬ ((tag ++ le32 s ++ p).drop 4).length < 4 := by
    rw [hdrop4]; simp only [List.length_append, le32_length]; omega
  simp only [readChunksF, h4, if_false, h44]
  rw [hdrop4]
  have htake4 : (tag ++ le32 s ++ p).take 4 = tag := by
    rw [hbs]; exact List.take_left' ht
  rw [htake4, readLE32_le32 _ _ hs]
  have hdrop44 : (le32 s ++ p).drop 4 = p := List.drop_left' (le32_length _)
  rw [hdrop44]
  have htakep : p.take s = p := List.take_of_length_le (by omega)
  have hdropp : p.drop (s + s % 2) = [] := List.drop_eq_nil_of_le (by omega)
  rw [if_neg (by omega), htakep, hdropp, readChunksF_short f _ [] (by simp)]
  rfl

/-- Scanning a trailing chunk whose declared size overruns the declared
outer size: `chunk.skip()` makes the stdlib `Chunk.seek` raise its bare
`RuntimeError`. -/
theorem readChunks_overrun (tag p : List Nat) (s budget : Nat)
    (ht : tag.length = 4) (hs : s < 4294967296) (h4p : 4 ≤ p.length)
    (hb : budget < 8 + s + s % 2) :
    readChunks budget (tag ++ le32 s ++ p) = .error .runtimeError := by
  have hbs : tag ++ le32 s ++ p = tag ++ (le32 s ++ p) := by
    simp [List.append_assoc]
  have hlen : (tag ++ le32 s ++ p).length = 8 + p.length := by
    simp only [List.length_append, le32_length, ht]
  obtain ⟨f, hf⟩ : ∃ f, (tag ++ le32 s ++ p).length = f + 1 := by
    refine ⟨7 + p.length, ?_⟩; omega
  have h4 : ¬ (tag ++ le32 s ++ p).length < 4 := by omega
  unfold readChunks
  rw [hf]
  have hdrop4 : (tag ++ le32 s ++ p).drop 4 = le32 s ++ p := by
    rw [hbs]; exact List.drop_left' ht
  have h44 : ¬ ((tag ++ le32 s ++ p).drop 4).length < 4 := by
    rw [hdrop4]; simp only [List.length_append, le32_length]; omega
  simp only [readChunksF, h4, if_false, h44]
  rw [hdrop4, readLE32_le32 _ _ hs, if_pos (by omega)]



/-! ### Lemmas about the chunk-collection fold -/

theorem buildChunks_concat (xs : List WavChunk) (x : WavChunk) :
    buildChunks (xs ++ [x]) = addChunk (buildChunks xs) x := by
  simp [buildChunks, List.foldl_append]

theorem addChunk_chunklist (wf : WavFile) (x : WavChunk) :
    (addChunk wf x).chunklist = wf.chunklist ++ [x] := by
  unfold addChunk
  dsimp only
  by_cases h1 : x.name ∈ KNOWN_CHUNKS
  · by_cases h2 : (alGet? wf.known x.name).isSome
    · simp [h1, h2]
    · simp [h1, h2]
  · simp [h1]

theorem addChunk_known (wf : WavFile) (x : WavChunk) :
    (addChunk wf x).known =
      if x.name ∈ KNOWN_CHUNKS ∧ alGet? wf.known x.name = none
      then (x.name, x) :: wf.known else wf.known := by
  unfold addChunk
  dsimp only
  by_cases h1 : x.name ∈ KNOWN_CHUNKS
  · by_cases h2 : (alGet? wf.known x.name).isSome
    · have h3 : ¬ (alGet? wf.known x.name = none) :=
        Option.isSome_iff_ne_none.mp h2
      simp [h1, h2, h3]
    · have h3 : alGet? wf.known x.name = none :=
        Option.not_isSome_iff_eq_none.mp h2
      simp [h1, h2, h3]
  · simp [h1]

theorem addChunk_other (wf : WavFile) (x : WavChunk) :
    (addChunk wf x).other =
      if x.name ∈ KNOWN_CHUNKS then wf.other
      else alAppend wf.other x.name x := by
  unfold addChunk
  dsimp only
  by_cases h1 : x.name ∈ KNOWN_CHUNKS
  · by_cases h2 : (alGet? wf.known x.name).isSome
    · simp [h1, h2]
    · simp [h1, h2]
  · simp [h1]

theorem addChunk_warnings (wf : WavFile) (x : WavChunk) :
    (addChunk wf x).warnings =
      wf.warnings ++
        (if x.name = dataTag ∧ alGet? wf.known fmtTag = none
         then [Warning.dataBeforeFmt] else []) ++
        (if x.name ∈ KNOWN_CHUNKS ∧ (alGet? wf.known x.name).isSome
         then [Warning.duplicateChunk x.name] else []) := by
  unfold addChunk
  dsimp only
  by_cases h1 : x.name ∈ KNOWN_CHUNKS
  · by_cases h2 : (alGet? wf.known x.name).isSome
    · simp [h1, h2]
    · simp [h1, h2]
  · simp [h1]

theorem buildChunks_chunklist (cs : List WavChunk) :
    (buildChunks cs).chunklist = cs := by
  induction cs using List.reverseRecOn with
  | nil => rfl
  | append_singleton xs x ih =>
    rw [buildChunks_concat, addChunk_chunklist, ih]

/-- The singular part of the dict holds, for each `KNOWN_CHUNKS` tag, the
first chunk of that name in arrival order. -/
theorem buildChunks_known (cs : List WavChunk) (t : List Nat)
    (ht : t ∈ KNOWN_CHUNKS) :
    alGet? (buildChunks cs).known t =
      cs.find? (fun c => decide (c.name = t)) := by
  induction cs using List.reverseRecOn with
  | nil => rfl
  | append_singleton xs x ih =>
    rw [buildChunks_concat, addChunk_known, List.find?_append]
    by_cases h1 : x.name ∈ KNOWN_CHUNKS
    · by_cases h2 : alGet? (buildChunks xs).known x.name = none
      · simp only [h1, h2, and_self, if_true]
        by_cases hx : x.name = t
        · subst hx
          rw [ih] at h2
          simp [alGet?, h2, List.find?]
        · have hfx : List.find? (fun c => decide (c.name = t)) [x] = none := by
            simp [List.find?, hx]
          simp [alGet?, hx, hfx, ih]
      · simp only [h1, h2, and_false, if_false]
        by_cases hx : x.name = t
        · subst hx
          rw [ih] at h2
          have : ∃ v, List.find? (fun c => decide (c.name = x.name)) xs = some v := by
            cases hfind : List.find? (fun c => decide (c.name = x.name)) xs with
            | none => exact absurd hfind h2
            | some v => exact ⟨v, rfl⟩
          obtain ⟨v, hv⟩ := this
          rw [hv, ih, hv, Option.or_some]
        · have hfx : List.find? (fun c => decide (c.name = t)) [x] = none := by
            simp [List.find?, hx]
          simp [hfx, ih]
    · have hx : x.name ≠ t := fun h => h1 (h ▸ ht)
      have hfx : List.find? (fun c => decide (c.name = t)) [x] = none := by
        simp [List.find?, hx]
      simp [h1, hfx, ih]

/-- Tags outside `KNOWN_CHUNKS` never enter the singular part. -/
theorem buildChunks_known_not (cs : List WavChunk) (t : List Nat)
    (ht : t ∉ KNOWN_CHUNKS) :
    alGet? (buildChunks cs).known t = none := by
  induction cs using List.reverseRecOn with
  | nil => rfl
  | append_singleton xs x ih =>
    rw [buildChunks_concat, addChunk_known]
    by_cases h1 : x.name ∈ KNOWN_CHUNKS ∧ alGet? (buildChunks xs).known x.name = none
    · have hx : x.name ≠ t := fun h => ht (h ▸ h1.1)
      simp [h1, alGet?, hx, ih]
    · simp [h1, ih]

theorem listGetD_cons (k0 : List Nat) (vs : List WavChunk)
    (l : List (List Nat × List WavChunk)) (t : List Nat) :
    listGetD ((k0, vs) :: l) t = if k0 = t then vs else listGetD l t := by
  by_cases h : k0 = t
  · simp [listGetD, alGet?, h]
  · simp [listGetD, alGet?, h]

theorem listGetD_alAppend (o : List (List Nat × List WavChunk))
    (k : List Nat) (c : WavChunk) (t : List Nat) :
    listGetD (alAppend o k c) t =
      if k = t then listGetD o t ++ [c] else listGetD o t := by
  induction o with
  | nil =>
    by_cases h : k = t
    · simp [alAppend, listGetD, alGet?, h]
    · simp [alAppend, listGetD, alGet?, h]
  | cons p ps ih =>
    obtain ⟨k0, vs⟩ := p
    simp only [alAppend]
    by_cases h0 : k0 = k
    · subst h0
      rw [if_pos rfl, listGetD_cons, listGetD_cons]
      by_cases h : k0 = t
      · simp [h]
      · simp [h]
    · rw [if_neg h0, listGetD_cons, listGetD_cons, ih]
      by_cases h : k0 = t
      · subst h
        have hk : ¬ (k = k0) := fun hh => h0 hh.symm
        simp [hk]
      · simp [h]

/-- The plural part of the dict holds, for each non-`KNOWN_CHUNKS` tag,
all chunks of that name in arrival order. -/
theorem buildChunks_other (cs : List WavChunk) (t : List Nat)
    (ht : t ∉ KNOWN_CHUNKS) :
    listGetD (buildChunks cs).other t =
      cs.filter (fun c => decide (c.name = t)) := by
  induction cs using List.reverseRecOn with
  | nil => rfl
  | append_singleton xs x ih =>
    rw [buildChunks_concat, addChunk_other, List.filter_append]
    by_cases h1 : x.name ∈ KNOWN_CHUNKS
    · have hx : x.name ≠ t := fun h => ht (h ▸ h1)
      simp [h1, List.filter, hx, ih]
    · rw [if_neg h1, listGetD_alAppend, ih]
      by_cases hx : x.name = t
      · simp [hx, List.filter]
      · simp [hx, List.filter]


/-- Exactly one duplicate warning is issued per dropped occurrence of a
singular tag: the warning count is the occurrence count minus one. -/
theorem buildChunks_dupwarns (cs : List WavChunk) (t : List Nat)
    (ht : t ∈ KNOWN_CHUNKS) :
    dupWarnCount (buildChunks cs) t =
      (cs.filter (fun c => decide (c.name = t))).length - 1 := by
  induction cs using List.reverseRecOn with
  | nil => rfl
  | append_singleton xs x ih =>
    rw [buildChunks_concat]
    unfold dupWarnCount at *
    rw [addChunk_warnings, List.filter_append, List.filter_append,
      List.filter_append, List.length_append, List.length_append,
      List.length_append]
    have hw1 : (List.filter (fun w => decide (w = Warning.duplicateChunk t))
        (if x.name = dataTag ∧ alGet? (buildChunks xs).known fmtTag = none
         then [Warning.dataBeforeFmt] else [])).length = 0 := by
      by_cases h : x.name = dataTag ∧ alGet? (buildChunks xs).known fmtTag = none
      · simp [h]
      · simp [h]
    rw [hw1]
    by_cases hx : x.name = t
    · subst hx
      have hk := buildChunks_known xs x.name ht
      by_cases hsome : (alGet? (buildChunks xs).known x.name).isSome
      · have hdup : (List.filter (fun w => decide (w = Warning.duplicateChunk x.name))
            (if x.name ∈ KNOWN_CHUNKS ∧ (alGet? (buildChunks xs).known x.name).isSome
             then [Warning.duplicateChunk x.name] else [])).length = 1 := by
          rw [if_pos ⟨ht, hsome⟩]; simp
        have hfind : ∃ v ∈ xs, decide (v.name = x.name) = true := by
          rw [← List.find?_isSome, ← hk]; exact hsome
        have hfl : 1 ≤ (xs.filter (fun c => decide (c.name = x.name))).length := by
          obtain ⟨v, hv1, hv2⟩ := hfind
          have : v ∈ xs.filter (fun c => decide (c.name = x.name)) :=
            List.mem_filter.mpr ⟨hv1, hv2⟩
          exact List.length_pos.mpr (fun hnil => by simp [hnil] at this)
        have hfx : (List.filter (fun c => decide (c.name = x.name)) [x]).length = 1 := by
          simp
        rw [hdup, ih, hfx]
        omega
      · have hdup : (List.filter (fun w => decide (w = Warning.duplicateChunk x.name))
            (if x.name ∈ KNOWN_CHUNKS ∧ (alGet? (buildChunks xs).known x.name).isSome
             then [Warning.duplicateChunk x.name] else [])).length = 0 := by
          rw [if_neg (fun hh => hsome hh.2)]; simp
        have hfl : (xs.filter (fun c => decide (c.name = x.name))).length = 0 := by
          by_contra hne
          have : ∃ v ∈ xs, decide (v.name = x.name) = true := by
            rcases hfilter : xs.filter (fun c => decide (c.name = x.name)) with _ | ⟨v, vs⟩
            · rw [hfilter] at hne; simp at hne
            · have : v ∈ xs.filter (fun c => decide (c.name = x.name)) := by
                rw [hfilter]; simp
              exact ⟨v, (List.mem_filter.mp this).1, (List.mem_filter.mp this).2⟩
          rw [← List.find?_isSome, ← hk] at this
          exact hsome this
        have hfx : (List.filter (fun c => decide (c.name = x.name)) [x]).length = 1 := by
          simp
        rw [hdup, ih, hfx, hfl]
    · have hdup : (List.filter (fun w => decide (w = Warning.duplicateChunk t))
          (if x.name ∈ KNOWN_CHUNKS ∧ (alGet? (buildChunks xs).known x.name).isSome
           then [Warning.duplicateChunk x.name] else [])).length = 0 := by
        by_cases h : x.name ∈ KNOWN_CHUNKS ∧ (alGet? (buildChunks xs).known x.name).isSome
        · simp [h, Warning.duplicateChunk.injEq, hx]
        · simp [h]
      have hfx : (List.filter (fun c => decide (c.name = t)) [x]).length = 0 := by
        simp [hx]
      rw [hdup, ih, hfx]
      omega

/-! ### Unfolding container construction on well-formed streams -/

theorem riffContent_mkWavBytes (body : List Nat)
    (h : body.length + 4 < 4294967296) :
    riffContent (mkWavBytes body) = WAVEb ++ body := by
  have h1 : mkWavBytes body =
      RIFFb ++ (le32 (body.length + 4) ++ (WAVEb ++ body)) := by
    simp [mkWavBytes, List.append_assoc]
  have h2 : mkWavBytes body =
      (RIFFb ++ le32 (body.length + 4)) ++ (WAVEb ++ body) := by
    simp [mkWavBytes, List.append_assoc]
  unfold riffContent
  have hdrop4 : (mkWavBytes body).drop 4 =
      le32 (body.length + 4) ++ (WAVEb ++ body) := by
    rw [h1]; exact List.drop_left' rfl
  have hdrop8 : (mkWavBytes body).drop 8 = WAVEb ++ body := by
    rw [h2]
    exact List.drop_left' (by simp [RIFFb, le32])
  rw [hdrop4, hdrop8, readLE32_le32 _ _ h]
  refine List.take_of_length_le ?_
  simp [WAVEb]

theorem build_mkWavBytes (body : List Nat)
    (h : body.length + 4 < 4294967296) :
    WavFile.build (mkWavBytes body) =
      (match readChunks body.length body with
       | .error e => .error e
       | .ok cs =>
         if (alGet? (buildChunks cs).known fmtTag).isSome ∧
            (alGet? (buildChunks cs).known dataTag).isSome
         then .ok (buildChunks cs)
         else .error .missingChunk) := by
  have hc := riffContent_mkWavBytes body h
  have hlen : (mkWavBytes body).length = 12 + body.length := by
    simp [mkWavBytes, RIFFb, WAVEb, le32]
    omega
  have htake : (mkWavBytes body).take 4 = RIFFb := by
    unfold mkWavBytes
    have : RIFFb ++ le32 (body.length + 4) ++ WAVEb ++ body =
        RIFFb ++ (le32 (body.length + 4) ++ WAVEb ++ body) := by
      simp [List.append_assoc]
    rw [this]; exact List.take_left' rfl
  have hdrop4 : (mkWavBytes body).drop 4 =
      le32 (body.length + 4) ++ (WAVEb ++ body) := by
    have h1 : mkWavBytes body =
        RIFFb ++ (le32 (body.length + 4) ++ (WAVEb ++ body)) := by
      simp [mkWavBytes, List.append_assoc]
    rw [h1]; exact List.drop_left' rfl
  have hsize : readLE32 ((mkWavBytes body).drop 4) = body.length + 4 := by
    rw [hdrop4]; exact readLE32_le32 _ _ h
  have hwave : (riffContent (mkWavBytes body)).take 4 = WAVEb := by
    rw [hc]; exact List.take_left' rfl
  have hbody : (riffContent (mkWavBytes body)).drop 4 = body := by
    rw [hc]; exact List.drop_left' rfl
  unfold WavFile.build
  rw [if_neg (by omega), if_neg (by rw [htake]; exact fun hh => hh rfl),
    if_neg (by rw [hwave]; exact fun hh => hh rfl), hbody, hsize]
  have hb4 : body.length + 4 - 4 = body.length := by omega
  rw [hb4]

/-- The RIFF content of a physically truncated file: the declared size
covers at least the bytes present, so the outer chunk exposes everything
after its header. -/
theorem riffContent_over (body : List Nat) (R : Nat)
    (h1 : body.length + 4 ≤ R) (h2 : R < 4294967296) :
    riffContent (RIFFb ++ le32 R ++ WAVEb ++ body) = WAVEb ++ body := by
  have ha : RIFFb ++ le32 R ++ WAVEb ++ body =
      RIFFb ++ (le32 R ++ (WAVEb ++ body)) := by
    simp [List.append_assoc]
  have hb : RIFFb ++ le32 R ++ WAVEb ++ body =
      (RIFFb ++ le32 R) ++ (WAVEb ++ body) := by
    simp [List.append_assoc]
  unfold riffContent
  have hdrop4 : (RIFFb ++ le32 R ++ WAVEb ++ body).drop 4 =
      le32 R ++ (WAVEb ++ body) := by
    rw [ha]; exact List.drop_left' rfl
  have hdrop8 : (RIFFb ++ le32 R ++ WAVEb ++ body).drop 8 = WAVEb ++ body := by
    rw [hb]
    exact List.drop_left' (by simp [RIFFb, le32])
  rw [hdrop4, hdrop8, readLE32_le32 _ _ h2]
  refine List.take_of_length_le ?_
  simp only [List.length_append]
  have : WAVEb.length = 4 := rfl
  omega

/-- Container construction on a physically truncated file (declared RIFF
size at least the bytes present): the scan runs with the budget the
declared size grants. -/
theorem build_over (body : List Nat) (R : Nat)
    (h1 : body.length + 4 ≤ R) (h2 : R < 4294967296) :
    WavFile.build (RIFFb ++ le32 R ++ WAVEb ++ body) =
      (match readChunks (R - 4) body with
       | .error e => .error e
       | .ok cs =>
         if (alGet? (buildChunks cs).known fmtTag).isSome ∧
            (alGet? (buildChunks cs).known dataTag).isSome
         then .ok (buildChunks cs)
         else .error .missingChunk) := by
  have hc := riffContent_over body R h1 h2
  have hlen : (RIFFb ++ le32 R ++ WAVEb ++ body).length = 12 + body.length := by
    simp [RIFFb, WAVEb, le32]
    omega
  have htake : (RIFFb ++ le32 R ++ WAVEb ++ body).take 4 = RIFFb := by
    have : RIFFb ++ le32 R ++ WAVEb ++ body =
        RIFFb ++ (le32 R ++ WAVEb ++ body) := by
      simp [List.append_assoc]
    rw [this]; exact List.take_left' rfl
  have hdrop4 : (RIFFb ++ le32 R ++ WAVEb ++ body).drop 4 =
      le32 R ++ (WAVEb ++ body) := by
    have ha : RIFFb ++ le32 R ++ WAVEb ++ body =
        RIFFb ++ (le32 R ++ (WAVEb ++ body)) := by
      simp [List.append_assoc]
    rw [ha]; exact List.drop_left' rfl
  have hsize : readLE32 ((RIFFb ++ le32 R ++ WAVEb ++ body).drop 4) = R := by
    rw [hdrop4]; exact readLE32_le32 _ _ h2
  have hwave : (riffContent (RIFFb ++ le32 R ++ WAVEb ++ body)).take 4 = WAVEb := by
    rw [hc]; exact List.take_left' rfl
  have hbody : (riffContent (RIFFb ++ le32 R ++ WAVEb ++ body)).drop 4 = body := by
    rw [hc]; exact List.drop_left' rfl
  unfold WavFile.build
  rw [if_neg (by omega), if_neg (by rw [htake]; exact fun hh => hh rfl),
    if_neg (by rw [hwave]; exact fun hh => hh rfl), hbody, hsize]

/-- Any successfully constructed container is the collection fold over
the scanned chunk list of its source bytes. -/
theorem build_ok_eq (bs : List Nat) (wf : WavFile)
    (h : WavFile.build bs = .ok wf) :
    ∃ cs, readChunks (readLE32 (bs.drop 4) - 4) ((riffContent bs).drop 4) =
        .ok cs ∧
      wf = buildChunks cs := by
  unfold WavFile.build at h
  split_ifs at h
  next =>
    cases hrc : readChunks (readLE32 (bs.drop 4) - 4) ((riffContent bs).drop 4) with
    | error e =>
      rw [hrc] at h
      have h2 : (Except.error e : Except BuildErr WavFile) = .ok wf := h
      cases h2
    | ok cs =>
      rw [hrc] at h
      have h2 : (if (alGet? (buildChunks cs).known fmtTag).isSome ∧
            (alGet? (buildChunks cs).known dataTag).isSome
          then (Except.ok (buildChunks cs) : Except BuildErr WavFile)
          else .error .missingChunk) = .ok wf := h
      refine ⟨cs, rfl, ?_⟩
      by_cases hcond :
          (alGet? (buildChunks cs).known fmtTag).isSome ∧
          (alGet? (buildChunks cs).known dataTag).isSome
      · rw [if_pos hcond] at h2
        exact ((Except.ok.injEq _ _).mp h2).symm
      · rw [if_neg hcond] at h2
        cases h2

/-- `WavFile.__iter__` on a collected container, characterized over the
arrival-order chunk list. -/
theorem iter_buildChunks (cs : List WavChunk) :
    (buildChunks cs).iter =
      (cs.find? (fun c => decide (c.name = fmtTag))).toList ++
      cs.filter (fun c =>
        decide (c.typeId = some INFOb) && decide (c.name = LISTTag)) ++
      cs.filter (fun c =>
        !(decide (c.name = fmtTag)) &&
        !(decide (c.name = LISTTag) && decide (c.typeId = some INFOb))) := by
  unfold WavFile.iter
  rw [buildChunks_known cs fmtTag (by decide),
    buildChunks_other cs LISTTag (by decide),
    buildChunks_chunklist, List.filter_filter]

end Wav

namespace Wav

/-! ### Helper lemmas for option and filter reasoning -/

theorem find?_toList_take {α : Type} (p : α → Bool) (l : List α) :
    (l.find? p).toList = (l.filter p).take 1 := by
  induction l with
  | nil => rfl
  | cons a t ih =>
    by_cases hp : p a
    · rw [List.filter_cons, if_pos hp, List.find?_cons, hp]
      rfl
    · rw [List.filter_cons, if_neg hp, List.find?_cons]
      cases hpa : p a with
      | true => exact absurd hpa hp
      | false => exact ih

end Wav

namespace Wav

/-! ### Claim C1 -/

/-- C1 (code bug): serialization never produces output.  `WavChunk.__str__`
evaluates `struct.pack('<4sl', ...) + self.data + ('\0' if odd else '')`,
concatenating `bytes` with `str` under Python 3, which raises `TypeError`
on every call — even for even-length payloads, where the right operand is
the empty `str`.  `WavFile.__str__` concatenates the per-chunk
serializations and so raises as soon as one chunk is yielded.  A container
built from a well-formed source therefore cannot be re-serialized at all,
let alone byte-identically: here a well-formed stream builds successfully,
yet serializing the result is the `TypeError`, not a byte string. -/
theorem wav_serializer_always_raises :
    (∀ c : WavChunk, WavChunk.str c = .error .typeError) ∧
    (WavFile.build (encodeWav c1items)).map WavFile.str =
      .ok (.error .typeError) :=
  ⟨fun c => rfl, by decide⟩

end Wav

namespace Wav

/-! ### Claim C2 -/


/-- C2 counterexample: a lowercase `list` chunk whose type id is INFO is
NOT yielded right after `fmt ` — it stays at its arrival position, so the
claimed order [fmt , list(INFO), data] does not hold. -/
theorem lowercase_list_info_not_promoted :
    (buildD (encodeWav c2LowerItems)).iter.map WavChunk.name =
      [fmtTag, dataTag, listTag] ∧
    (buildD (encodeWav c2LowerItems)).iter.map WavChunk.name ≠
      [fmtTag, listTag, dataTag] := by decide

/-- C2 (amended): canonical iteration yields the first `fmt ` chunk,
then every uppercase-`LIST` chunk whose type id is INFO in arrival order,
then the remaining chunks in arrival order with `fmt ` chunks and
INFO-typed uppercase-`LIST` chunks skipped; lowercase `list` chunks are
never promoted.  (The hypothesis on `LIST` payloads confines the claim to
containers whose iteration does not raise while decoding a type id.) -/
theorem canonical_iteration_order (bs : List Nat) (wf : WavFile)
    (hb : WavFile.build bs = .ok wf)
    (hlist : ∀ c ∈ wf.chunklist, c.name = LISTTag → listParseOk c.data = true) :
    wf.iter =
      (wf.chunklist.find? (fun c => decide (c.name = fmtTag))).toList ++
      wf.chunklist.filter (fun c =>
        decide (c.typeId = some INFOb) && decide (c.name = LISTTag)) ++
      wf.chunklist.filter (fun c =>
        !(decide (c.name = fmtTag)) &&
        !(decide (c.name = LISTTag) && decide (c.typeId = some INFOb))) := by
  obtain ⟨cs, hscan, heq⟩ := build_ok_eq bs wf hb
  subst heq
  rw [buildChunks_chunklist, iter_buildChunks]


/-- Witness for C2: on the concrete example, iteration yields
fmt , LIST(INFO), data, smpl. -/
theorem canonical_iteration_order_witness :
    (buildD (encodeWav c2items)).iter.map WavChunk.name =
      [fmtTag, LISTTag, dataTag, smplTag] := by
  have hb : WavFile.build (encodeWav c2items) = .ok (buildD (encodeWav c2items)) := by
    decide
  have h := canonical_iteration_order (encodeWav c2items) (buildD (encodeWav c2items))
    hb (by decide)
  rw [h]
  decide

/-! ### Claim C4 -/

theorem known_isSome_of_exists (cs : List WavChunk) (t : List Nat)
    (ht : t ∈ KNOWN_CHUNKS) (h : ∃ c ∈ cs, c.name = t) :
    (alGet? (buildChunks cs).known t).isSome = true := by
  rw [buildChunks_known _ _ ht]
  refine List.find?_isSome.mpr ?_
  obtain ⟨c, hc, he⟩ := h
  exact ⟨c, hc, by simp [he]⟩

/-- C4 (amended): at the container's top level, fewer than 4 tag bytes
signal clean end-of-stream — and so does a short read of the 4-byte size
field (its `EOFError` is caught by the collection loop as a clean break);
and on a physically truncated file (declared RIFF size `R` at least the
bytes present, and also covering the truncated chunk's own declared
envelope — otherwise the stdlib `Chunk.seek` raises a bare
`RuntimeError`) a declared payload overrunning the remaining bytes ends
the scan after recording the truncated chunk.  None of these raise
`ParseError`; construction succeeds whenever `fmt ` and `data` were
scanned. -/
theorem short_mid_chunk_reads_end_scan
    (items : List Item) (junk tag p : List Nat) (s R : Nat)
    (hit : ∀ it ∈ items, it.1.length = 4 ∧ it.2.length < 4294967296)
    (hfmt : ∃ it ∈ items, it.1 = fmtTag)
    (hdata : ∃ it ∈ items, it.1 = dataTag)
    (hjunk : junk.length < 8)
    (hlen1 : (encodeBody items ++ junk).length + 4 < 4294967296)
    (htag : tag.length = 4) (hs : s < 4294967296) (hshort : p.length < s)
    (hbytes : (encodeBody items ++ (tag ++ le32 s ++ p)).length + 4 ≤ R)
    (hR1 : (encodeBody items).length + (8 + s + s % 2) + 4 ≤ R)
    (hR2 : R < 4294967296) :
    (∃ wf, WavFile.build (mkWavBytes (encodeBody items ++ junk)) = .ok wf ∧
      wf.chunklist = items.map toChunk) ∧
    (∃ wf, WavFile.build (RIFFb ++ le32 R ++ WAVEb ++
          (encodeBody items ++ (tag ++ le32 s ++ p))) = .ok wf ∧
      wf.chunklist = items.map toChunk ++ [⟨tag, s, p⟩]) := by
  obtain ⟨itf, hitf, hef⟩ := hfmt
  obtain ⟨itd, hitd, hed⟩ := hdata
  constructor
  · have henc : (encodeBody items).length ≤ (encodeBody items ++ junk).length := by
      simp only [List.length_append]; omega
    have hscan : readChunks (encodeBody items ++ junk).length
        (encodeBody items ++ junk) = .ok (items.map toChunk) := by
      rw [readChunks_append_encode items junk _ hit henc,
        readChunks_short _ junk hjunk]
      simp [Except.map]
    have hb := build_mkWavBytes (encodeBody items ++ junk) hlen1
    rw [hscan] at hb
    have hb2 : WavFile.build (mkWavBytes (encodeBody items ++ junk)) =
        (if (alGet? (buildChunks (items.map toChunk)).known fmtTag).isSome ∧
            (alGet? (buildChunks (items.map toChunk)).known dataTag).isSome
         then .ok (buildChunks (items.map toChunk))
         else .error .missingChunk) := hb
    have hkf : (alGet? (buildChunks (items.map toChunk)).known fmtTag).isSome = true :=
      known_isSome_of_exists _ _ (by decide)
        ⟨toChunk itf, List.mem_map_of_mem _ hitf, hef⟩
    have hkd : (alGet? (buildChunks (items.map toChunk)).known dataTag).isSome = true :=
      known_isSome_of_exists _ _ (by decide)
        ⟨toChunk itd, List.mem_map_of_mem _ hitd, hed⟩
    refine ⟨buildChunks (items.map toChunk), ?_, ?_⟩
    · rw [hb2, if_pos ⟨hkf, hkd⟩]
    · exact buildChunks_chunklist _
  · have henc : (encodeBody items).length ≤ R - 4 := by omega
    have hscan : readChunks (R - 4) (encodeBody items ++ (tag ++ le32 s ++ p)) =
        .ok (items.map toChunk ++ [⟨tag, s, p⟩]) := by
      rw [readChunks_append_encode items _ _ hit henc,
        readChunks_truncated tag p s _ htag hs hshort (by omega)]
      rfl
    have hb := build_over (encodeBody items ++ (tag ++ le32 s ++ p)) R hbytes hR2
    rw [hscan] at hb
    have hb2 : WavFile.build (RIFFb ++ le32 R ++ WAVEb ++
          (encodeBody items ++ (tag ++ le32 s ++ p))) =
        (if (alGet? (buildChunks (items.map toChunk ++ [⟨tag, s, p⟩])).known
              fmtTag).isSome ∧
            (alGet? (buildChunks (items.map toChunk ++ [⟨tag, s, p⟩])).known
              dataTag).isSome
         then .ok (buildChunks (items.map toChunk ++ [⟨tag, s, p⟩]))
         else .error .missingChunk) := hb
    have hkf : (alGet? (buildChunks (items.map toChunk ++ [⟨tag, s, p⟩])).known
        fmtTag).isSome = true :=
      known_isSome_of_exists _ _ (by decide)
        ⟨toChunk itf, List.mem_append_left _ (List.mem_map_of_mem _ hitf), hef⟩
    have hkd : (alGet? (buildChunks (items.map toChunk ++ [⟨tag, s, p⟩])).known
        dataTag).isSome = true :=
      known_isSome_of_exists _ _ (by decide)
        ⟨toChunk itd, List.mem_append_left _ (List.mem_map_of_mem _ hitd), hed⟩
    refine ⟨buildChunks (items.map toChunk ++ [⟨tag, s, p⟩]), ?_, ?_⟩
    · rw [hb2, if_pos ⟨hkf, hkd⟩]
    · exact buildChunks_chunklist _

/-- C4 counterexample: a stream whose last envelope has a truncated size
field constructs successfully (clean end-of-stream), instead of raising
the ParseError the claim requires for a short read inside a chunk. -/
theorem truncated_size_field_no_parse_error :
    exceptIsOk (WavFile.build (mkWavBytes (encodeBody c4items ++ c4junk))) = true ∧
    (buildD (mkWavBytes (encodeBody c4items ++ c4junk))).chunklist.length = 2 := by
  decide

/-- Witness for C4 at concrete inputs. -/
theorem short_mid_chunk_reads_end_scan_witness :
    (∃ wf, WavFile.build (mkWavBytes (encodeBody c4items ++ c4junk)) = .ok wf ∧
      wf.chunklist = c4items.map toChunk) ∧
    (∃ wf, WavFile.build (RIFFb ++ le32 200 ++ WAVEb ++
        (encodeBody c4items ++ ([97, 98, 99, 100] ++ le32 100 ++ [1, 2, 3]))) =
        .ok wf ∧
      wf.chunklist = c4items.map toChunk ++ [⟨[97, 98, 99, 100], 100, [1, 2, 3]⟩]) :=
  short_mid_chunk_reads_end_scan c4items c4junk [97, 98, 99, 100] [1, 2, 3] 100 200
    (by decide) (by decide) (by decide) (by decide) (by decide) (by decide)
    (by decide) (by decide) (by decide) (by decide) (by decide)

end Wav

namespace Wav

/-! ### Claim C3 -/



/-- C3 (code bug): the loop of `SmplChunk._parse` unpacks every record
at the fixed offset 36, so both decoded records equal the FIRST record
(1..6) instead of the successive literal records (1..6 then 7..12); and a
payload declaring 2 loops with only one record present decodes without
any error instead of raising. -/
theorem smpl_loop_records_repeat_first :
    (smplParse c3payload).map SmplFields.loops =
      .ok [⟨1, 2, 3, 4, 5, 6⟩, ⟨1, 2, 3, 4, 5, 6⟩] ∧
    (⟨1, 2, 3, 4, 5, 6⟩ : LoopPoint) ≠ ⟨7, 8, 9, 10, 11, 12⟩ ∧
    (smplParse c3truncated).map SmplFields.loops =
      .ok [⟨1, 2, 3, 4, 5, 6⟩, ⟨1, 2, 3, 4, 5, 6⟩] := by decide

/-! ### Claim C5 -/





/-- C5 (code bug): with a well-formed `cue ` chunk present, the
`cue_points` accessor raises `AttributeError('num_cue_points')` instead
of returning the decoded records (`_fieldnames` is a plain string missing
the tuple comma, `_parse` references the undefined `_cue_fieldnames`, and
the accessor reads `.loops` instead of `.cue_points`); with the chunk
absent it returns the empty list as claimed. -/
theorem cue_points_raises_attribute_error :
    (alGet? (buildD (encodeWav c5items)).known cueTag).isSome = true ∧
    (buildD (encodeWav c5items)).cue_points =
      .error (.attributeError "num_cue_points") ∧
    (buildD (encodeWav c5noCueItems)).cue_points = .ok [] := by decide

/-! ### Claim C6 -/


/-- C6 counterexample: `wavl` is not in the claim's singular set, yet the
second `wavl` chunk is dropped from the tag lookup with a duplicate
warning and nothing accumulates under the plural lookup — the code's
singular set is all of `KNOWN_CHUNKS`, which also holds `list` and
`wavl`. -/
theorem wavl_second_occurrence_dropped :
    alGet? (buildD (encodeWav c6items)).known wavlTag =
      some ⟨wavlTag, 2, [5, 0]⟩ ∧
    alGet? (buildD (encodeWav c6items)).other wavlTag = none ∧
    (buildD (encodeWav c6items)).warnings = [.duplicateChunk wavlTag] ∧
    (buildD (encodeWav c6items)).chunklist.length = 4 := by decide

/-- C6 (amended): the singular set is exactly `KNOWN_CHUNKS` (`cue `,
`data`, `fact`, `fmt `, `inst`, `list`, `plst`, `smpl`, `wavl`): for
those tags the lookup holds the first arrival and each extra occurrence
is dropped from the lookup with exactly one duplicate warning; all other
tags accumulate in arrival order under the plural lookup. -/
theorem singular_chunk_policy (bs : List Nat) (wf : WavFile)
    (hb : WavFile.build bs = .ok wf) :
    (∀ t ∈ KNOWN_CHUNKS,
      alGet? wf.known t = wf.chunklist.find? (fun c => decide (c.name = t)) ∧
      dupWarnCount wf t =
        (wf.chunklist.filter (fun c => decide (c.name = t))).length - 1) ∧
    (∀ t, t ∉ KNOWN_CHUNKS →
      listGetD wf.other t = wf.chunklist.filter (fun c => decide (c.name = t)) ∧
      alGet? wf.known t = none) := by
  obtain ⟨cs, hscan, heq⟩ := build_ok_eq bs wf hb
  subst heq
  rw [buildChunks_chunklist]
  exact ⟨fun t ht => ⟨buildChunks_known _ _ ht, buildChunks_dupwarns _ _ ht⟩,
    fun t ht => ⟨buildChunks_other _ _ ht, buildChunks_known_not _ _ ht⟩⟩

/-- Witness for C6 at the concrete duplicate-`wavl` stream. -/
theorem singular_chunk_policy_witness :
    alGet? (buildD (encodeWav c6items)).known wavlTag =
      (buildD (encodeWav c6items)).chunklist.find?
        (fun c => decide (c.name = wavlTag)) ∧
    dupWarnCount (buildD (encodeWav c6items)) wavlTag =
      ((buildD (encodeWav c6items)).chunklist.filter
        (fun c => decide (c.name = wavlTag))).length - 1 := by
  have hb : WavFile.build (encodeWav c6items) = .ok (buildD (encodeWav c6items)) := by
    decide
  exact (singular_chunk_policy _ _ hb).1 wavlTag (by decide)

end Wav

namespace Wav

/-! ### Claim C7 -/



/-- C7: on a parsed format chunk, PCM (`format_tag = 1`) yields
`sample_width = ceil(bits_per_sample / 8)` (characterized by
`bits ≤ 8*q < bits + 8`; 16 bits give 2) and
`frame_size = channels * sample_width`; any other tag makes both raise
`UnsupportedCompression` instead of a numeric default — and a container
with a non-PCM format chunk still constructs successfully. -/
theorem pcm_sample_width_and_frame_size :
    (∀ d f, fmtParse d = .ok f →
      ((f.format_tag = 1 →
        ∃ b q, f.bits_per_sample = some b ∧
          f.sample_width = .ok q ∧
          b ≤ 8 * q ∧ 8 * q < b + 8 ∧
          f.frame_size = .ok (f.channels * q)) ∧
       (f.format_tag ≠ 1 →
        f.sample_width = .error .unsupportedCompression ∧
        f.frame_size = .error .unsupportedCompression))) ∧
    fmtWidthOf pcm16payload = .ok 2 ∧
    fmtWidthOf ima17payload = .error .unsupportedCompression ∧
    exceptIsOk (WavFile.build (encodeWav c7imaItems)) = true := by
  refine ⟨?_, by decide, by decide, by decide⟩
  intro d f h
  simp only [fmtParse] at h
  split_ifs at h with h1 h2 h3
  · cases h
    constructor
    · intro _
      set b : Int := toS16 (readLE16 (d.drop 14)) with hb
      refine ⟨b, (b + 7).fdiv 8, rfl, ?_, ?_, ?_, ?_⟩
      · simp [FmtFields.sample_width, h2]
      · rw [Int.fdiv_eq_ediv _ (by norm_num)]
        have hdm := Int.ediv_add_emod (b + 7) 8
        have hr0 : 0 ≤ (b + 7) % 8 := Int.emod_nonneg _ (by norm_num)
        have hr8 : (b + 7) % 8 < 8 := Int.emod_lt_of_pos _ (by norm_num)
        omega
      · rw [Int.fdiv_eq_ediv _ (by norm_num)]
        have hdm := Int.ediv_add_emod (b + 7) 8
        have hr0 : 0 ≤ (b + 7) % 8 := Int.emod_nonneg _ (by norm_num)
        have hr8 : (b + 7) % 8 < 8 := Int.emod_lt_of_pos _ (by norm_num)
        omega
      · simp only [FmtFields.frame_size, FmtFields.sample_width, if_pos h2]
        rfl
    · intro hne
      exact absurd h2 hne
  · cases h
    constructor
    · intro heq
      exact absurd heq h2
    · intro _
      constructor
      · simp [FmtFields.sample_width, h2]
      · simp only [FmtFields.frame_size, FmtFields.sample_width, if_neg h2]
        rfl


/-- Witness for C7 at the concrete PCM payload. -/
theorem pcm_sample_width_and_frame_size_witness :
    ∃ b q, f16.bits_per_sample = some b ∧ f16.sample_width = .ok q ∧
      b ≤ 8 * q ∧ 8 * q < b + 8 ∧ f16.frame_size = .ok (f16.channels * q) :=
  (pcm_sample_width_and_frame_size.1 pcm16payload f16 (by decide)).1 (by decide)

/-! ### Claim C8 -/

/-- C8 (code bug): the padding law is unobservable on the write side —
`WavChunk.__str__` concatenates `bytes` with `str` under Python 3 and so
raises `TypeError` on every call, for odd-length payloads (where the
claimed single zero pad byte would be appended) and even-length payloads
alike.  On the read side the exclusion half of the claim does hold: the
scanner records the declared size (which excludes the pad) and returns
the payload without the pad byte, resuming after it. -/
theorem chunk_padding_serializer_raises :
    (∀ c : WavChunk, c.data.length % 2 = 1 →
      WavChunk.str c = .error .typeError) ∧
    (∀ c : WavChunk, c.data.length % 2 = 0 →
      WavChunk.str c = .error .typeError) ∧
    (∀ tag p rest budget, tag.length = 4 → p.length < 4294967296 →
      8 + (p.length + p.length % 2) ≤ budget →
      readChunks budget (encChunk tag p ++ rest) =
        (readChunks (budget - (8 + (p.length + p.length % 2))) rest).map
          (fun cs => ⟨tag, p.length, p⟩ :: cs)) :=
  ⟨fun _ _ => rfl, fun _ _ => rfl,
   fun tag p rest budget ht hp hb => readChunks_cons tag p rest budget ht hp hb⟩

/-- Witness for C8 at concrete chunks. -/
theorem chunk_padding_serializer_raises_witness :
    WavChunk.str ⟨fmtTag, 3, [1, 2, 3]⟩ = .error .typeError ∧
    WavChunk.str ⟨dataTag, 2, [1, 2]⟩ = .error .typeError ∧
    readChunks 12 (encChunk fmtTag [1, 2, 3] ++ []) =
      (readChunks 0 []).map (fun cs => ⟨fmtTag, 3, [1, 2, 3]⟩ :: cs) :=
  ⟨chunk_padding_serializer_raises.1 ⟨fmtTag, 3, [1, 2, 3]⟩ (by decide),
   chunk_padding_serializer_raises.2.1 ⟨dataTag, 2, [1, 2]⟩ (by decide),
   chunk_padding_serializer_raises.2.2 fmtTag [1, 2, 3] [] 12 (by decide)
     (by decide) (by decide)⟩

end Wav

namespace Wav

/-! ### Claim C9 -/

/-- C9: construction fails with the missing-required-chunk error — and no
container is produced — whenever a stream of well-formed chunk encodings
holds no `fmt ` chunk or no `data` chunk; conversely, every constructed
container has both. -/
theorem missing_required_chunk_fails :
    (∀ items : List Item,
      (∀ it ∈ items, it.1.length = 4 ∧ it.2.length < 4294967296) →
      (encodeBody items).length + 4 < 4294967296 →
      ((∀ it ∈ items, it.1 ≠ fmtTag) ∨ (∀ it ∈ items, it.1 ≠ dataTag)) →
      WavFile.build (encodeWav items) = .error .missingChunk) ∧
    (∀ bs wf, WavFile.build bs = .ok wf →
      (wf.chunklist.find? (fun c => decide (c.name = fmtTag))).isSome = true ∧
      (wf.chunklist.find? (fun c => decide (c.name = dataTag))).isSome = true) := by
  constructor
  · intro items hit hl hmiss
    have hscan : readChunks (encodeBody items).length (encodeBody items) =
        .ok (items.map toChunk) :=
      readChunks_encodeBody items _ hit (Nat.le_refl _)
    have hb := build_mkWavBytes (encodeBody items) hl
    rw [hscan] at hb
    have hb2 : WavFile.build (mkWavBytes (encodeBody items)) =
        (if (alGet? (buildChunks (items.map toChunk)).known fmtTag).isSome ∧
            (alGet? (buildChunks (items.map toChunk)).known dataTag).isSome
         then .ok (buildChunks (items.map toChunk))
         else .error .missingChunk) := hb
    show WavFile.build (mkWavBytes (encodeBody items)) = .error .missingChunk
    rw [hb2, if_neg]
    rintro ⟨hf, hd⟩
    rcases hmiss with hm | hm
    · rw [buildChunks_known _ _ (by decide)] at hf
      have hnone : (items.map toChunk).find?
          (fun c => decide (c.name = fmtTag)) = none := by
        rw [List.find?_eq_none]
        intro c hc hcontra
        obtain ⟨it, hit2, rfl⟩ := List.mem_map.mp hc
        exact hm it hit2 (of_decide_eq_true hcontra)
      rw [hnone] at hf
      cases hf
    · rw [buildChunks_known _ _ (by decide)] at hd
      have hnone : (items.map toChunk).find?
          (fun c => decide (c.name = dataTag)) = none := by
        rw [List.find?_eq_none]
        intro c hc hcontra
        obtain ⟨it, hit2, rfl⟩ := List.mem_map.mp hc
        exact hm it hit2 (of_decide_eq_true hcontra)
      rw [hnone] at hd
      cases hd
  · intro bs wf hb
    obtain ⟨cs, hscan, heq⟩ := build_ok_eq bs wf hb
    subst heq
    rw [buildChunks_chunklist]
    unfold WavFile.build at hb
    split_ifs at hb
    rw [hscan] at hb
    have hb2 : (if (alGet? (buildChunks cs).known fmtTag).isSome ∧
          (alGet? (buildChunks cs).known dataTag).isSome
        then (Except.ok (buildChunks cs) : Except BuildErr WavFile)
        else .error .missingChunk) = .ok (buildChunks cs) := hb
    by_cases hcond :
        (alGet? (buildChunks cs).known fmtTag).isSome = true ∧
        (alGet? (buildChunks cs).known dataTag).isSome = true
    · rw [buildChunks_known _ _ (by decide), buildChunks_known _ _ (by decide)]
        at hcond
      exact hcond
    · rw [if_neg hcond] at hb2
      cases hb2

/-- Witness for C9: a stream holding only a `fmt ` chunk (no `data`)
fails construction with the missing-chunk error. -/
theorem missing_required_chunk_fails_witness :
    WavFile.build (encodeWav [(fmtTag, [1, 2])]) = .error .missingChunk :=
  missing_required_chunk_fails.1 [(fmtTag, [1, 2])] (by decide) (by decide)
    (Or.inr (by decide))

/-! ### Claim C10 -/


/-- C10 counterexample: a duplicate `fmt ` chunk stays in the arrival
list (3 chunks) but canonical iteration yields only 2 chunks — the
duplicate `fmt ` is never yielded, contradicting the claim that dropped
duplicates are still yielded (and, on the write side, nothing is ever
serialized: the serializer raises `TypeError` on every chunk). -/
theorem duplicate_fmt_skipped_in_iteration :
    (buildD (encodeWav c10items)).chunklist.length = 3 ∧
    (buildD (encodeWav c10items)).iter.length = 2 ∧
    (buildD (encodeWav c10items)).iter.map WavChunk.name =
      [fmtTag, dataTag] := by decide

/-- C10 (amended): every scanned chunk, duplicates of singular tags
included, is appended to the arrival list (the scan returns exactly that
list); for every tag other than `fmt ` and uppercase `LIST`, iteration
yields exactly the arrival-order occurrences (so duplicates of singular
tags such as `data` or `smpl` are still yielded) — but for `fmt ` only
the first occurrence is ever yielded.  (The `LIST`-payload hypothesis
confines the claim to containers whose iteration does not raise while
decoding a type id; and nothing is ever serialized — the serializer
raises `TypeError`.) -/
theorem duplicates_kept_in_arrival_order (bs : List Nat) (wf : WavFile)
    (hb : WavFile.build bs = .ok wf)
    (hlist : ∀ c ∈ wf.chunklist, c.name = LISTTag → listParseOk c.data = true) :
    readChunks (readLE32 (bs.drop 4) - 4) ((riffContent bs).drop 4) =
      .ok wf.chunklist ∧
    (∀ t, t ≠ fmtTag → t ≠ LISTTag →
      wf.iter.filter (fun c => decide (c.name = t)) =
        wf.chunklist.filter (fun c => decide (c.name = t))) ∧
    wf.iter.filter (fun c => decide (c.name = fmtTag)) =
      (wf.chunklist.filter (fun c => decide (c.name = fmtTag))).take 1 := by
  obtain ⟨cs, hscan, heq⟩ := build_ok_eq bs wf hb
  subst heq
  rw [buildChunks_chunklist]
  refine ⟨hscan, ?_, ?_⟩
  · intro t ht1 ht2
    rw [iter_buildChunks, List.filter_append, List.filter_append]
    have hA : ((cs.find? (fun c => decide (c.name = fmtTag))).toList.filter
        (fun c => decide (c.name = t))) = [] := by
      cases hF : cs.find? (fun c => decide (c.name = fmtTag)) with
      | none => rfl
      | some f =>
        have hf := List.find?_some hF
        have hf2 : f.name = fmtTag := of_decide_eq_true (by exact hf)
        have : decide (f.name = t) = false := by
          refine decide_eq_false ?_
          intro hh
          exact ht1 (hh.symm.trans hf2)
        simp [this]
    have hB : ((cs.filter (fun c =>
        decide (c.typeId = some INFOb) && decide (c.name = LISTTag))).filter
        (fun c => decide (c.name = t))) = [] := by
      rw [List.filter_filter]
      refine List.filter_eq_nil_iff.mpr ?_
      intro c _ hcontra
      have h1 := Bool.and_elim_left hcontra
      have h2 := Bool.and_elim_right (Bool.and_elim_right hcontra)
      have ha : c.name = t := of_decide_eq_true h1
      have hb2 : c.name = LISTTag := of_decide_eq_true h2
      exact ht2 (ha ▸ hb2)
    have hC : ((cs.filter (fun c =>
        !(decide (c.name = fmtTag)) &&
        !(decide (c.name = LISTTag) && decide (c.typeId = some INFOb)))).filter
        (fun c => decide (c.name = t))) =
        cs.filter (fun c => decide (c.name = t)) := by
      rw [List.filter_filter]
      refine List.filter_congr ?_
      intro c _
      by_cases hct : c.name = t
      · have h1 : decide (c.name = fmtTag) = false := by
          refine decide_eq_false ?_
          intro hh
          exact ht1 (hct.symm.trans hh)
        have h2 : decide (c.name = LISTTag) = false := by
          refine decide_eq_false ?_
          intro hh
          exact ht2 (hct.symm.trans hh)
        rw [h1, h2]
        simp
      · have h0 : decide (c.name = t) = false := decide_eq_false hct
        rw [h0]
        simp
    rw [hA, hB, hC, List.nil_append, List.nil_append]
  · rw [iter_buildChunks, List.filter_append, List.filter_append]
    have hB : ((cs.filter (fun c =>
        decide (c.typeId = some INFOb) && decide (c.name = LISTTag))).filter
        (fun c => decide (c.name = fmtTag))) = [] := by
      rw [List.filter_filter]
      refine List.filter_eq_nil_iff.mpr ?_
      intro c _ hcontra
      have h1 := Bool.and_elim_left hcontra
      have h2 := Bool.and_elim_right (Bool.and_elim_right hcontra)
      have ha : c.name = fmtTag := of_decide_eq_true h1
      have hb2 : c.name = LISTTag := of_decide_eq_true h2
      have : fmtTag = LISTTag := ha ▸ hb2
      exact absurd this (by decide)
    have hC : ((cs.filter (fun c =>
        !(decide (c.name = fmtTag)) &&
        !(decide (c.name = LISTTag) && decide (c.typeId = some INFOb)))).filter
        (fun c => decide (c.name = fmtTag))) = [] := by
      rw [List.filter_filter]
      refine List.filter_eq_nil_iff.mpr ?_
      intro c _ hcontra
      have h1 := Bool.and_elim_left hcontra
      have h2 := Bool.and_elim_left (Bool.and_elim_right hcontra)
      rw [h1] at h2
      cases h2
    have hA : ((cs.find? (fun c => decide (c.name = fmtTag))).toList.filter
        (fun c => decide (c.name = fmtTag))) =
        (cs.find? (fun c => decide (c.name = fmtTag))).toList := by
      cases hF : cs.find? (fun c => decide (c.name = fmtTag)) with
      | none => rfl
      | some f =>
        have hf := List.find?_some hF
        simp [hf]
    rw [hA, hB, hC, List.append_nil, List.append_nil, find?_toList_take]

/-- Witness for C10 at the duplicate-`fmt ` stream. -/
theorem duplicates_kept_in_arrival_order_witness :
    (buildD (encodeWav c10items)).iter.filter
        (fun c => decide (c.name = fmtTag)) =
      ((buildD (encodeWav c10items)).chunklist.filter
        (fun c => decide (c.name = fmtTag))).take 1 := by
  have hb : WavFile.build (encodeWav c10items) =
      .ok (buildD (encodeWav c10items)) := by decide
  exact (duplicates_kept_in_arrival_order _ _ hb (by decide)).2.2

end Wav
